import Mathlib

/-!
Shallow embedding of the incremental contact discovery service
(`bucket.py`, `userSet.py`, `errors.py`, `Messages_pb2.py`, `app.py`).

Byte strings are modelled as `List Nat`; Python `dict` (insertion ordered,
unique keys) is modelled as an association list with the operations below
mirroring dict semantics.  Python `float` arithmetic is modelled exactly
over `ℚ` (the spec states divisions use real-valued arithmetic), and
Python `int` as `ℤ`.
-/

namespace ICD

/-- Opaque byte strings (user identifiers, tokens, contact identifiers). -/
abbrev Bytes := List Nat

/-- `m.get(k)` on a Python dict: value of the first (hence, with unique keys,
the only) entry for `k`. -/
def dget {α : Type} : List (Bytes × α) → Bytes → Option α
  | [], _ => none
  | (k', v) :: rest, k => if k' = k then some v else dget rest k

/-- `m[k] = v` on a Python dict: overwrite in place if present, append otherwise. -/
def dset {α : Type} : List (Bytes × α) → Bytes → α → List (Bytes × α)
  | [], k, v => [(k, v)]
  | (k', v') :: rest, k, v =>
      if k' = k then (k', v) :: rest else (k', v') :: dset rest k v

/-- `del m[k]` on a Python dict: drop the entry for `k`. -/
def ddel {α : Type} : List (Bytes × α) → Bytes → List (Bytes × α)
  | [], _ => []
  | (k', v') :: rest, k => if k' = k then rest else (k', v') :: ddel rest k

/-- The dict invariant: every key occurs at most once. -/
def NodupKeys {α : Type} (m : List (Bytes × α)) : Prop :=
  (m.map Prod.fst).Nodup

@[simp] theorem dget_nil {α : Type} (k : Bytes) : dget ([] : List (Bytes × α)) k = none := rfl

@[simp] theorem dget_cons {α : Type} (k' : Bytes) (v : α) (rest : List (Bytes × α)) (k : Bytes) :
    dget ((k', v) :: rest) k = if k' = k then some v else dget rest k := rfl

@[simp] theorem dget_dset {α : Type} (m : List (Bytes × α)) (k : Bytes) (v : α) :
    dget (dset m k v) k = some v := by
  induction m with
  | nil => simp [dset]
  | cons hd tl ih =>
      obtain ⟨k', v'⟩ := hd
      by_cases h : k' = k <;> simp [dset, h, ih]

theorem dget_dset_ne {α : Type} (m : List (Bytes × α)) (k k₀ : Bytes) (v : α)
    (h : k ≠ k₀) : dget (dset m k v) k₀ = dget m k₀ := by
  induction m with
  | nil => simp [dset, h]
  | cons hd tl ih =>
      obtain ⟨k', v'⟩ := hd
      by_cases h' : k' = k
      · subst h'
        simp [dset, h]
      · simp [dset, h', ih]

/-- Setting an absent key appends the new entry at the end. -/
theorem dset_absent {α : Type} (m : List (Bytes × α)) (k : Bytes) (v : α)
    (h : dget m k = none) : dset m k v = m ++ [(k, v)] := by
  induction m with
  | nil => simp [dset]
  | cons hd tl ih =>
      obtain ⟨k', v'⟩ := hd
      by_cases h' : k' = k
      · simp [h'] at h
      · simp [dget, h'] at h
        simp [dset, h', ih h]

/-- Deleting the key just set gives the deletion of the original dict. -/
theorem ddel_dset {α : Type} (m : List (Bytes × α)) (k : Bytes) (v : α) :
    ddel (dset m k v) k = ddel m k := by
  induction m with
  | nil => simp [dset, ddel]
  | cons hd tl ih =>
      obtain ⟨k', v'⟩ := hd
      by_cases h' : k' = k <;> simp [dset, ddel, h', ih]

/-- Deleting an absent key is the identity. -/
theorem ddel_absent {α : Type} (m : List (Bytes × α)) (k : Bytes)
    (h : dget m k = none) : ddel m k = m := by
  induction m with
  | nil => simp [ddel]
  | cons hd tl ih =>
      obtain ⟨k', v'⟩ := hd
      by_cases h' : k' = k
      · simp [h'] at h
      · simp [dget, h'] at h
        simp [ddel, h', ih h]

/-- Deleting an appended fresh entry restores the original dict. -/
theorem ddel_append_single {α : Type} (m : List (Bytes × α)) (k : Bytes) (v : α)
    (h : dget m k = none) : ddel (m ++ [(k, v)]) k = m := by
  induction m with
  | nil => simp [ddel]
  | cons hd tl ih =>
      obtain ⟨k', v'⟩ := hd
      by_cases h' : k' = k
      · simp [h'] at h
      · simp [dget, h'] at h
        simp [ddel, h', ih h]

/-- A key not among the dict's keys looks up to `none`. -/
theorem dget_eq_none_of_not_mem {α : Type} (m : List (Bytes × α)) (k : Bytes)
    (h : k ∉ m.map Prod.fst) : dget m k = none := by
  induction m with
  | nil => simp
  | cons hd tl ih =>
      obtain ⟨k', v'⟩ := hd
      simp only [List.map_cons, List.mem_cons] at h
      push_neg at h
      have hne : ¬k' = k := fun hh => h.1 hh.symm
      simp [dget, hne, ih h.2]

/-- With unique keys, lookup after deletion of `k` finds nothing for `k`. -/
theorem dget_ddel {α : Type} (m : List (Bytes × α)) (k : Bytes)
    (h : NodupKeys m) : dget (ddel m k) k = none := by
  induction m with
  | nil => simp [ddel]
  | cons hd tl ih =>
      obtain ⟨k', v'⟩ := hd
      simp only [NodupKeys, List.map_cons, List.nodup_cons] at h
      by_cases h' : k' = k
      · subst h'
        simp only [ddel, if_pos rfl]
        exact dget_eq_none_of_not_mem tl k' h.1
      · simp [ddel, h', dget, ih h.2]

/-! ### Leaky bucket (`bucket.py`) -/

/-- The `Bucket` class: per-user drain-empty timestamps plus parameters. -/
structure Bucket where
  users : List (Bytes × ℚ)
  max_count : ℤ
  leak_rate : ℚ
  drain_period : ℚ
deriving DecidableEq

/-- `Bucket.__init__(max_count, drain_period)`. -/
def Bucket.init (max_count : ℤ) (drain_period : ℤ) : Bucket :=
  { users := []
    leak_rate := (max_count : ℚ) / (drain_period : ℚ)
    max_count := max_count
    drain_period := (drain_period : ℚ) }

/-- `Bucket.userCount`. -/
def Bucket.userCount (b : Bucket) : ℕ := b.users.length

/-- `Bucket.currentSizeForUser(user, time)`, translated line by line:
absent users give `0`; a timestamp strictly in the past gives `max_count`;
otherwise `int(ceil((timestamp - time) * leak_rate))`. -/
def Bucket.currentSizeForUser (b : Bucket) (user : Bytes) (time : ℚ) : ℤ :=
  match dget b.users user with
  | none => 0
  | some timestamp =>
      if timestamp < time then b.max_count
      else Int.ceil ((timestamp - time) * b.leak_rate)

/-- `Bucket.userCanSyncAmount(user, amount, time)`: returns the boolean
result together with the updated bucket (the Python method mutates
`self._users` in place). -/
def Bucket.userCanSyncAmount (b : Bucket) (user : Bytes) (amount : ℤ) (time : ℚ) :
    Bool × Bucket :=
  if amount > b.max_count then (false, b)
  else
    match dget b.users user with
    | none =>
        (true, { b with users := dset b.users user (time + (amount : ℚ) / b.leak_rate) })
    | some timestamp =>
        if timestamp < time then
          (true, { b with users := dset b.users user (time + (amount : ℚ) / b.leak_rate) })
        else
          let timestamp' := timestamp + (amount : ℚ) / b.leak_rate
          if timestamp' > time + b.drain_period then (false, b)
          else (true, { b with users := dset b.users user timestamp' })

/-- `Bucket.cleanUsers(time)`. -/
def Bucket.cleanUsers (b : Bucket) (time : ℚ) : Bucket :=
  { b with users := b.users.filter (fun kv => kv.2 > time) }

/-- `Bucket.clear()`. -/
def Bucket.clearAll (b : Bucket) : Bucket :=
  { b with users := [] }

/-- Consistency of the derived fields, as established by `Bucket.__init__`
with positive parameters. -/
def Bucket.WF (b : Bucket) : Prop :=
  0 < b.max_count ∧ 0 < b.drain_period ∧ b.leak_rate = (b.max_count : ℚ) / b.drain_period

/-! ### User sets (`userSet.py`) -/

/-- The `UserSet` class: user identifier to authentication token. -/
structure UserSet where
  users : List (Bytes × Bytes)
deriving DecidableEq

/-- `UserSet.__init__`. -/
def UserSet.init : UserSet := ⟨[]⟩

/-- `UserSet.userCount`. -/
def UserSet.userCount (s : UserSet) : ℕ := s.users.length

/-- `UserSet.userExists(user)`. -/
def UserSet.userExists (s : UserSet) (user : Bytes) : Bool :=
  (dget s.users user).isSome

/-- `UserSet.addUser(user, auth_token)`. -/
def UserSet.addUser (s : UserSet) (user : Bytes) (auth_token : Bytes) : UserSet :=
  ⟨dset s.users user auth_token⟩

/-- `UserSet.removeUser(user)`. -/
def UserSet.removeUser (s : UserSet) (user : Bytes) : UserSet :=
  if (dget s.users user).isSome then ⟨ddel s.users user⟩ else s

/-- `UserSet.isValidUser(user, auth_token)`. -/
def UserSet.isValidUser (s : UserSet) (user : Bytes) (auth_token : Bytes) : Bool :=
  match dget s.users user with
  | none => false
  | some storedToken => storedToken = auth_token

/-- `UserSet.containedUsers(users)`: the list comprehension
`[x for x in users if x in self._users]`. -/
def UserSet.containedUsers (s : UserSet) (users : List Bytes) : List Bytes :=
  users.filter (fun x => (dget s.users x).isSome)

/-- The `ExpiringUserSet` class: user identifier to removal deadline. -/
structure ExpiringUserSet where
  users : List (Bytes × ℤ)
  expiration_time : ℤ
deriving DecidableEq

/-- `ExpiringUserSet.__init__(expiration_time)`. -/
def ExpiringUserSet.init (expiration_time : ℤ) : ExpiringUserSet :=
  ⟨[], expiration_time⟩

/-- `ExpiringUserSet.userCount`. -/
def ExpiringUserSet.userCount (s : ExpiringUserSet) : ℕ := s.users.length

/-- `ExpiringUserSet.userExists(user)`. -/
def ExpiringUserSet.userExists (s : ExpiringUserSet) (user : Bytes) : Bool :=
  (dget s.users user).isSome

/-- `ExpiringUserSet.addUser(user, time)`: deadline `time + expiration_time`. -/
def ExpiringUserSet.addUser (s : ExpiringUserSet) (user : Bytes) (time : ℤ) :
    ExpiringUserSet :=
  { s with users := dset s.users user (time + s.expiration_time) }

/-- `ExpiringUserSet.removeUser(user)`. -/
def ExpiringUserSet.removeUser (s : ExpiringUserSet) (user : Bytes) : ExpiringUserSet :=
  if (dget s.users user).isSome then { s with users := ddel s.users user } else s

/-- `ExpiringUserSet.containedUsers(users)`. -/
def ExpiringUserSet.containedUsers (s : ExpiringUserSet) (users : List Bytes) : List Bytes :=
  users.filter (fun x => (dget s.users x).isSome)

/-- `ExpiringUserSet.update(time)`: keep entries with deadline strictly
beyond `time`, return the number removed together with the new set. -/
def ExpiringUserSet.update (s : ExpiringUserSet) (time : ℤ) : ℕ × ExpiringUserSet :=
  let filtered := s.users.filter (fun kv => kv.2 > time)
  (s.users.length - filtered.length, { s with users := filtered })

/-! ### Results and errors (`Messages_pb2.py`, `errors.py`) -/

/-- The `Result` enum of `Messages.proto`. -/
inductive Result where
  | SUCCESS
  | AUTHENTICATION_INVALID
  | RATE_LIMIT_EXCEEDED
  | REQUEST_DATA_MISSING
  | REQUEST_DATA_INVALID
deriving DecidableEq

/-- The four concrete `ICDError` subclasses of `errors.py`. -/
inductive ICDError where
  | authenticationError
  | rateLimitError
  | missingDataError
  | invalidDataError
deriving DecidableEq

/-- The `result` attribute set by each `ICDError` subclass constructor. -/
def ICDError.result : ICDError → Result
  | .authenticationError => .AUTHENTICATION_INVALID
  | .rateLimitError => .RATE_LIMIT_EXCEEDED
  | .missingDataError => .REQUEST_DATA_MISSING
  | .invalidDataError => .REQUEST_DATA_INVALID

/-- The `ICD.Request` protobuf message (proto3):
`user` (bytes, field 1), `auth_token` (bytes, field 2),
`identifiers` (repeated bytes, field 3). -/
structure Request where
  user : Bytes
  auth_token : Bytes
  identifiers : List Bytes
deriving DecidableEq

/-- The default `Request` instance (all fields empty). -/
def Request.default : Request := ⟨[], [], []⟩

/-- The `ICD.Response` protobuf message. -/
structure Response where
  result : Result
  added_users : List Bytes
  removed_users : List Bytes
deriving DecidableEq

/-! Protobuf wire-format decoding for `Request.ParseFromString`.
A serialized proto3 message is a sequence of key-value records; the key is a
varint holding `field_number << 3 | wire_type`.  The empty string decodes to
the default instance.  Unknown fields are skipped by wire type; the
deprecated group wire types (3, 4) and invalid wire types (6, 7), field
number 0, truncated records and overlong varints are decode errors, matching
the checked failure modes of the Python runtime for this message. -/

/-- Read one base-128 varint (at most 10 bytes, as in the Python runtime). -/
def readVarint : ℕ → List ℕ → ℕ → ℕ → Option (ℕ × List ℕ)
  | 0, _, _, _ => none
  | _ + 1, [], _, _ => none
  | fuel + 1, byte :: rest, shift, acc =>
      let acc' := acc + byte % 128 * 2 ^ shift
      if byte < 128 then some (acc', rest)
      else readVarint fuel rest (shift + 7) acc'

/-- Skip the payload of an unknown field with the given wire type. -/
def skipFieldPayload (wireType : ℕ) (l : List ℕ) : Option (List ℕ) :=
  if wireType = 0 then (readVarint 10 l 0 0).map Prod.snd
  else if wireType = 1 then if 8 ≤ l.length then some (l.drop 8) else none
  else if wireType = 2 then
    match readVarint 10 l 0 0 with
    | none => none
    | some (n, rest) => if n ≤ rest.length then some (rest.drop n) else none
  else if wireType = 5 then if 4 ≤ l.length then some (l.drop 4) else none
  else none

/-- Decode the fields of a `Request`, threading the partial message.
`fuel` bounds the number of records; each record consumes at least one
byte, so `l.length + 1` suffices. -/
def parseRequestFields : ℕ → List ℕ → Request → Option Request
  | 0, _, _ => none
  | _ + 1, [], r => some r
  | fuel + 1, l, r =>
      match readVarint 10 l 0 0 with
      | none => none
      | some (key, rest) =>
          let fieldNum := key / 8
          let wireType := key % 8
          if fieldNum = 0 then none
          else if fieldNum = 1 ∧ wireType = 2 then
            match readVarint 10 rest 0 0 with
            | none => none
            | some (n, rest') =>
                if n ≤ rest'.length then
                  parseRequestFields fuel (rest'.drop n) { r with user := rest'.take n }
                else none
          else if fieldNum = 2 ∧ wireType = 2 then
            match readVarint 10 rest 0 0 with
            | none => none
            | some (n, rest') =>
                if n ≤ rest'.length then
                  parseRequestFields fuel (rest'.drop n) { r with auth_token := rest'.take n }
                else none
          else if fieldNum = 3 ∧ wireType = 2 then
            match readVarint 10 rest 0 0 with
            | none => none
            | some (n, rest') =>
                if n ≤ rest'.length then
                  parseRequestFields fuel (rest'.drop n)
                    { r with identifiers := r.identifiers ++ [rest'.take n] }
                else none
          else
            match skipFieldPayload wireType rest with
            | none => none
            | some rest' => parseRequestFields fuel rest' r

/-- `Request.ParseFromString(data)`: `none` models the parse exception. -/
def parseRequest (data : List ℕ) : Option Request :=
  parseRequestFields (data.length + 1) data Request.default

/-! ### Application state and handlers (`app.py`)

The Flask request object and the clock are externalized: each embedded
handler takes the value returned by `request.get_data()` (an `Option`,
matching the `data is None` check in the source; a request with empty raw
body yields `some []`, since Flask returns the body bytes `b""`), and the
relevant clock readings (`_time()` as `ℤ`, `time()` as `ℚ`). -/

/-- `s2_period` configuration constant. -/
def s2_period : ℤ := 86400

/-- `s2_delta` configuration constant. -/
def s2_delta : ℤ := 864000

/-- `max_contacts` configuration constant. -/
def max_contacts : ℤ := 20000

/-- The module-level mutable state of `app.py`. -/
structure ServerState where
  s1 : UserSet
  s2_added : ExpiringUserSet
  s2_removed : ExpiringUserSet
  s1_buckets : Bucket
  s2_buckets : Bucket
deriving DecidableEq

/-- The state at module load: all containers empty, buckets parameterized
as in `app.py`. -/
def initialState : ServerState :=
  { s1 := UserSet.init
    s2_added := ExpiringUserSet.init s2_delta
    s2_removed := ExpiringUserSet.init s2_delta
    s1_buckets := Bucket.init max_contacts s2_delta
    s2_buckets := Bucket.init max_contacts s2_period }

/-- `_makeErrorResponse(error)`. -/
def makeErrorResponse (e : ICDError) : Response :=
  { result := e.result, added_users := [], removed_users := [] }

/-- `_makeResponse(added, removed)`. -/
def makeResponse (added removed : List Bytes) : Response :=
  { result := .SUCCESS, added_users := added, removed_users := removed }

/-- `_getDataFromRequest()`: `data` is the value of `request.get_data()`. -/
def getDataFromRequest (data : Option (List ℕ)) :
    Except ICDError (Bytes × Bytes × List Bytes) :=
  match data with
  | none => .error .missingDataError
  | some d =>
      match parseRequest d with
      | none => .error .invalidDataError
      | some req => .ok (req.user, req.auth_token, req.identifiers)

/-- `_checkAuthentication()`. -/
def checkAuthentication (s1 : UserSet) (data : Option (List ℕ)) :
    Except ICDError (Bytes × List Bytes) :=
  match getDataFromRequest data with
  | .error e => .error e
  | .ok (user, auth_token, identifiers) =>
      if s1.isValidUser user auth_token then .ok (user, identifiers)
      else .error .authenticationError

/-- `_checkAuthenticationAndExtractIdentifiers()`. -/
def checkAuthenticationAndExtractIdentifiers (s1 : UserSet) (data : Option (List ℕ)) :
    Except ICDError (Bytes × List Bytes) :=
  match checkAuthentication s1 data with
  | .error e => .error e
  | .ok (user, identifiers) =>
      if (identifiers.length : ℤ) > max_contacts then .error .rateLimitError
      else .ok (user, identifiers)

/-- `addNewUser(user, auth_token)`; `now` is the `_time()` reading. -/
def addNewUser (s : ServerState) (user auth_token : Bytes) (now : ℤ) : ServerState :=
  { s with
      s1 := s.s1.addUser user auth_token
      s2_added := s.s2_added.addUser user now
      s2_removed := s.s2_removed.removeUser user }

/-- `removeUser(user)`; `now` is the `_time()` reading. -/
def removeUser (s : ServerState) (user : Bytes) (now : ℤ) : ServerState :=
  { s with
      s1 := s.s1.removeUser user
      s2_added := s.s2_added.removeUser user
      s2_removed := s.s2_removed.addUser user now }

/-- `_updateUserSets()`. -/
def updateUserSets (s : ServerState) (now : ℤ) : ServerState :=
  { s with
      s2_added := (s.s2_added.update now).2
      s2_removed := (s.s2_removed.update now).2 }

/-- `_catchRequestErrors(callback)`: sweep, run the callback, encode a
caught `ICDError` as an error response.  Mutations made by the callback
before raising persist, hence the callback returns the state in both
branches. -/
def catchRequestErrors (s : ServerState) (nowSweep : ℤ)
    (callback : ServerState → Except ICDError Response × ServerState) :
    Response × ServerState :=
  let s' := updateUserSets s nowSweep
  match callback s' with
  | (.ok r, s'') => (r, s'')
  | (.error e, s'') => (makeErrorResponse e, s'')

/-- `_fullDiscoveryWithErrors()`; `now` is the `time()` reading passed to
the bucket. -/
def fullDiscoveryWithErrors (s : ServerState) (data : Option (List ℕ)) (now : ℚ) :
    Except ICDError Response × ServerState :=
  match checkAuthenticationAndExtractIdentifiers s.s1 data with
  | .error e => (.error e, s)
  | .ok (user, identifiers) =>
      if identifiers.length = 0 then (.ok (makeResponse [] []), s)
      else
        let (allowed, b') := s.s1_buckets.userCanSyncAmount user (identifiers.length : ℤ) now
        let s' := { s with s1_buckets := b' }
        if allowed then (.ok (makeResponse (s.s1.containedUsers identifiers) []), s')
        else (.error .rateLimitError, s')

/-- `_incrementalDiscoveryWithErrors()`. -/
def incrementalDiscoveryWithErrors (s : ServerState) (data : Option (List ℕ)) (now : ℚ) :
    Except ICDError Response × ServerState :=
  match checkAuthenticationAndExtractIdentifiers s.s1 data with
  | .error e => (.error e, s)
  | .ok (user, identifiers) =>
      if identifiers.length = 0 then (.ok (makeResponse [] []), s)
      else
        let (allowed, b') := s.s2_buckets.userCanSyncAmount user (identifiers.length : ℤ) now
        let s' := { s with s2_buckets := b' }
        if allowed then
          (.ok (makeResponse (s.s2_added.containedUsers identifiers)
                             (s.s2_removed.containedUsers identifiers)), s')
        else (.error .rateLimitError, s')

/-- `_registerUserWithErrors()`. -/
def registerUserWithErrors (s : ServerState) (data : Option (List ℕ)) (now : ℤ) :
    Except ICDError Response × ServerState :=
  match getDataFromRequest data with
  | .error e => (.error e, s)
  | .ok (user, auth_token, _) => (.ok (makeResponse [] []), addNewUser s user auth_token now)

/-- `_deleteUserWithErrors()`. -/
def deleteUserWithErrors (s : ServerState) (data : Option (List ℕ)) (now : ℤ) :
    Except ICDError Response × ServerState :=
  match checkAuthentication s.s1 data with
  | .error e => (.error e, s)
  | .ok (user, _) => (.ok (makeResponse [] []), removeUser s user now)

/-- The `/discovery/full` endpoint (`fullDiscovery`). -/
def fullDiscovery (s : ServerState) (data : Option (List ℕ))
    (nowSweep : ℤ) (nowBucket : ℚ) : Response × ServerState :=
  catchRequestErrors s nowSweep (fun st => fullDiscoveryWithErrors st data nowBucket)

/-- The `/discovery/incremental` endpoint (`incrementalDiscovery`). -/
def incrementalDiscovery (s : ServerState) (data : Option (List ℕ))
    (nowSweep : ℤ) (nowBucket : ℚ) : Response × ServerState :=
  catchRequestErrors s nowSweep (fun st => incrementalDiscoveryWithErrors st data nowBucket)

/-- The `/user/register` endpoint (`registerUser`). -/
def registerUser (s : ServerState) (data : Option (List ℕ)) (now : ℤ) :
    Response × ServerState :=
  catchRequestErrors s now (fun st => registerUserWithErrors st data now)

/-- The `/user/delete` endpoint (`deleteUser`). -/
def deleteUser (s : ServerState) (data : Option (List ℕ)) (now : ℤ) :
    Response × ServerState :=
  catchRequestErrors s now (fun st => deleteUserWithErrors st data now)

/-! ### Helper lemmas about the bucket -/

/-- A failed `userCanSyncAmount` call leaves the bucket unchanged. -/
theorem userCanSyncAmount_false_frame (b : Bucket) (u : Bytes) (k : ℤ) (t : ℚ)
    (h : (b.userCanSyncAmount u k t).1 = false) : (b.userCanSyncAmount u k t).2 = b := by
  unfold Bucket.userCanSyncAmount at *
  by_cases h1 : k > b.max_count
  · simp [h1]
  · simp only [h1, if_false] at *
    cases hget : dget b.users u with
    | none => simp [hget] at h
    | some tau =>
        simp only [hget] at h ⊢
        by_cases h2 : tau < t
        · simp [h2] at h
        · simp only [h2, if_false] at h ⊢
          by_cases h3 : tau + (k : ℚ) / b.leak_rate > t + b.drain_period
          · simp [h3]
          · simp [h3] at h

/-- Every entry after `dset` is an old entry or carries the written value. -/
theorem mem_dset {α : Type} (m : List (Bytes × α)) (k : Bytes) (v : α) :
    ∀ p ∈ dset m k v, p ∈ m ∨ p.2 = v := by
  induction m with
  | nil => simp [dset]
  | cons hd tl ih =>
      obtain ⟨k', v'⟩ := hd
      intro p hp
      by_cases h : k' = k
      · simp only [dset, if_pos h] at hp
        rcases List.mem_cons.mp hp with h' | h'
        · right; rw [h']
        · left; exact List.mem_cons_of_mem _ h'
      · simp only [dset, if_neg h] at hp
        rcases List.mem_cons.mp hp with h' | h'
        · left; exact h' ▸ List.mem_cons_self _ _
        · rcases ih p h' with h'' | h''
          · left; exact List.mem_cons_of_mem _ h''
          · right; exact h''

/-- In a well-formed bucket, a sync of `k ≤ max_count` units takes at most
`drain_period` to drain: `k / leak_rate ≤ drain_period`. -/
theorem amount_div_rate_le_period (b : Bucket) (hwf : b.WF) (k : ℤ)
    (hk : k ≤ b.max_count) : (k : ℚ) / b.leak_rate ≤ b.drain_period := by
  obtain ⟨hc, hp, hr⟩ := hwf
  have hcq : (0 : ℚ) < (b.max_count : ℚ) := by exact_mod_cast hc
  have hrpos : 0 < b.leak_rate := by
    rw [hr]; exact div_pos hcq hp
  rw [div_le_iff₀ hrpos, hr]
  have hkq : (k : ℚ) ≤ (b.max_count : ℚ) := by exact_mod_cast hk
  calc (k : ℚ) ≤ (b.max_count : ℚ) := hkq
    _ = b.drain_period * ((b.max_count : ℚ) / b.drain_period) := by
        field_simp

/-- The decision table for `admit` stated by the spec (§4.3): condition
rows in order, effect and return value, plus the derived guarantee that a
`false` return never changes state. -/
def AdmitSpec (b : Bucket) (u : Bytes) (k : ℤ) (t : ℚ) : Prop :=
  (k > b.max_count → b.userCanSyncAmount u k t = (false, b)) ∧
  (k ≤ b.max_count → dget b.users u = none →
    b.userCanSyncAmount u k t =
      (true, { b with users := dset b.users u (t + (k : ℚ) / b.leak_rate) })) ∧
  (∀ tau, k ≤ b.max_count → dget b.users u = some tau → tau ≤ t →
    b.userCanSyncAmount u k t =
      (true, { b with users := dset b.users u (t + (k : ℚ) / b.leak_rate) })) ∧
  (∀ tau, dget b.users u = some tau → t < tau →
    tau + (k : ℚ) / b.leak_rate > t + b.drain_period →
    b.userCanSyncAmount u k t = (false, b)) ∧
  (∀ tau, k ≤ b.max_count → dget b.users u = some tau → t < tau →
    tau + (k : ℚ) / b.leak_rate ≤ t + b.drain_period →
    b.userCanSyncAmount u k t =
      (true, { b with users := dset b.users u (tau + (k : ℚ) / b.leak_rate) })) ∧
  ((b.userCanSyncAmount u k t).1 = false → (b.userCanSyncAmount u k t).2 = b)

/-- C3: `userCanSyncAmount` implements the spec's decision table: oversize
requests fail without state change; absent or drained (`τ(u) ≤ now`) users
are written `τ(u) = now + k/r` and admitted; a projected timestamp beyond
`now + P` fails without state change; otherwise `τ(u) += k/r` and the sync
is admitted.  A `false` return never changes stored state. -/
theorem userCanSyncAmount_decision_table (b : Bucket) (u : Bytes) (k : ℤ) (t : ℚ)
    (hwf : b.WF) : AdmitSpec b u k t := by
  refine ⟨?_, ?_, ?_, ?_, ?_, userCanSyncAmount_false_frame b u k t⟩
  · intro hk
    unfold Bucket.userCanSyncAmount
    simp [hk]
  · intro hk hget
    unfold Bucket.userCanSyncAmount
    simp [not_lt.mpr hk, hget]
  · intro tau hk hget htau
    unfold Bucket.userCanSyncAmount
    simp only [gt_iff_lt, not_lt.mpr hk, if_false, hget]
    rcases lt_or_eq_of_le htau with hlt | heq
    · simp [hlt]
    · subst heq
      have hdiv : tau + (k : ℚ) / b.leak_rate ≤ tau + b.drain_period := by
        have := amount_div_rate_le_period b hwf k hk
        linarith
      simp [lt_irrefl, not_lt.mpr hdiv]
  · intro tau hget htau hover
    unfold Bucket.userCanSyncAmount
    by_cases hk : k > b.max_count
    · simp [hk]
    · simp [hk, hget, not_lt.mpr (le_of_lt htau), hover]
  · intro tau hk hget htau hunder
    unfold Bucket.userCanSyncAmount
    simp [not_lt.mpr hk, hget, not_lt.mpr (le_of_lt htau), not_lt.mpr hunder]

/-- Witness for the decision-table theorem at the deployed parameters. -/
theorem userCanSyncAmount_decision_table_witness :
    (Bucket.init 20000 86400).WF ∧ AdmitSpec (Bucket.init 20000 86400) [7] 5 0 :=
  ⟨by norm_num [Bucket.init, Bucket.WF],
   userCanSyncAmount_decision_table (Bucket.init 20000 86400) [7] 5 0
     (by norm_num [Bucket.init, Bucket.WF])⟩

/-- C1: evaluation at the failing input.  After `admit(u, 20000, 1234)` the
stored drain-empty timestamp is `87634`; at `now = 100000` the timestamp
is in the past, so the bucket is drained and `level` should be `0`, but
`currentSizeForUser` returns `max_count = 20000` (the `timestamp < time`
branch returns `self.max_count`). -/
theorem currentSizeForUser_drained_returns_max_count :
    dget (((Bucket.init 20000 86400).userCanSyncAmount [7] 20000 1234).2).users [7] =
      some 87634 ∧
    ((Bucket.init 20000 86400).userCanSyncAmount [7] 20000 1234).2.currentSizeForUser
      [7] 100000 = 20000 := by
  constructor
  · norm_num [Bucket.init, Bucket.userCanSyncAmount, dget, dset]
  · norm_num [Bucket.init, Bucket.userCanSyncAmount, Bucket.currentSizeForUser, dget, dset]

/-- C2: evaluation at the failing input.  Flask's `request.get_data()`
returns the raw body bytes and is never `None`; an empty body arrives as
`b""` (`some []`), which parses as the default protobuf message, so no
endpoint answers `REQUEST_DATA_MISSING` for an empty body: register even
succeeds (registering the empty user), the authenticated endpoints answer
`AUTHENTICATION_INVALID`.  An undecodable body (`[15]`, wire type 7) does
yield `REQUEST_DATA_INVALID`, and only the unreachable `None` case would
produce `REQUEST_DATA_MISSING`. -/
theorem emptyBody_never_missing_data :
    (registerUser initialState (some []) 0).1.result = Result.SUCCESS ∧
    (fullDiscovery initialState (some []) 0 0).1.result = Result.AUTHENTICATION_INVALID ∧
    (incrementalDiscovery initialState (some []) 0 0).1.result =
      Result.AUTHENTICATION_INVALID ∧
    (deleteUser initialState (some []) 0).1.result = Result.AUTHENTICATION_INVALID ∧
    (fullDiscovery initialState (some [15]) 0 0).1.result = Result.REQUEST_DATA_INVALID ∧
    (fullDiscovery initialState none 0 0).1.result = Result.REQUEST_DATA_MISSING := by
  decide

/-- C4 counterexample: if `u` is already registered, `register(u, t)`
followed by `unregister(u, t)` does not leave `S1` in its prior state —
the pre-existing entry for `u` is gone. -/
theorem register_unregister_changes_preexisting_s1 :
    (removeUser (addNewUser { initialState with s1 := UserSet.mk [([1], [9])] } [1] [2] 5)
        [1] 7).s1 ≠ UserSet.mk [([1], [9])] := by
  decide

/-- `removeUser` does not change the expiration parameter. -/
theorem ExpiringUserSet.removeUser_expiration (s : ExpiringUserSet) (u : Bytes) :
    (s.removeUser u).expiration_time = s.expiration_time := by
  unfold ExpiringUserSet.removeUser
  split <;> rfl

/-- `userExists` is lookup success. -/
theorem UserSet.userExists_false_iff (s : UserSet) (u : Bytes) :
    s.userExists u = false ↔ dget s.users u = none := by
  unfold UserSet.userExists
  cases dget s.users u <;> simp

/-- C4 (amended): provided `u` is not registered in `S1` beforehand,
`register(u, t); unregister(u, t)` leaves `S1` in its prior state, leaves
`S2_removed` containing `u` with deadline the unregistration time plus Δ,
and leaves `S2_added` without `u`. -/
theorem register_unregister_roundtrip (s : ServerState) (u tok : Bytes) (n1 n2 : ℤ)
    (hfresh : s.s1.userExists u = false)
    (hnd : NodupKeys s.s2_added.users) :
    (removeUser (addNewUser s u tok n1) u n2).s1 = s.s1 ∧
    dget (removeUser (addNewUser s u tok n1) u n2).s2_removed.users u =
      some (n2 + s.s2_removed.expiration_time) ∧
    (removeUser (addNewUser s u tok n1) u n2).s2_added.userExists u = false := by
  have h1 : dget s.s1.users u = none := (UserSet.userExists_false_iff s.s1 u).mp hfresh
  refine ⟨?_, ?_, ?_⟩
  · show (s.s1.addUser u tok).removeUser u = s.s1
    unfold UserSet.addUser UserSet.removeUser
    simp only [dget_dset, Option.isSome_some, if_true]
    rw [ddel_dset, ddel_absent s.s1.users u h1]
  · show dget ((s.s2_removed.removeUser u).addUser u n2).users u =
      some (n2 + s.s2_removed.expiration_time)
    unfold ExpiringUserSet.addUser
    simp [ExpiringUserSet.removeUser_expiration]
  · show ((s.s2_added.addUser u n1).removeUser u).userExists u = false
    unfold ExpiringUserSet.addUser ExpiringUserSet.removeUser ExpiringUserSet.userExists
    simp only [dget_dset, Option.isSome_some, if_true]
    rw [ddel_dset, dget_ddel s.s2_added.users u hnd]
    rfl

/-- Witness for the amended C4 round-trip at a concrete state. -/
theorem register_unregister_roundtrip_witness :
    initialState.s1.userExists [1] = false ∧ NodupKeys initialState.s2_added.users ∧
    ((removeUser (addNewUser initialState [1] [2] 5) [1] 7).s1 = initialState.s1 ∧
     dget (removeUser (addNewUser initialState [1] [2] 5) [1] 7).s2_removed.users [1] =
       some (7 + initialState.s2_removed.expiration_time) ∧
     (removeUser (addNewUser initialState [1] [2] 5) [1] 7).s2_added.userExists [1] = false) :=
  ⟨by decide, by simp [NodupKeys, initialState, ExpiringUserSet.init],
   register_unregister_roundtrip initialState [1] [2] 5 7 (by decide)
     (by simp [NodupKeys, initialState, ExpiringUserSet.init])⟩

/-! ### The bucket horizon invariant (spec §3) -/

/-- The stored-entry invariant: every drain-empty timestamp is at most
`now + drain_period`. -/
def BucketInv (b : Bucket) (t : ℚ) : Prop :=
  ∀ p ∈ b.users, p.2 ≤ t + b.drain_period

/-- The state-changing operations of the `Bucket` class, each tagged with
the clock reading at which it is invoked. -/
inductive BucketOp where
  | syncAmount (user : Bytes) (amount : ℤ) (time : ℚ)
  | clean (time : ℚ)
  | clearAll (time : ℚ)

/-- The clock reading of an operation. -/
def BucketOp.time : BucketOp → ℚ
  | .syncAmount _ _ t => t
  | .clean t => t
  | .clearAll t => t

/-- Apply one operation. -/
def applyBucketOp (b : Bucket) : BucketOp → Bucket
  | .syncAmount u k t => (b.userCanSyncAmount u k t).2
  | .clean t => b.cleanUsers t
  | .clearAll _ => b.clearAll

/-- Run a sequence of operations. -/
def runBucketOps (b : Bucket) : List BucketOp → Bucket
  | [] => b
  | op :: ops => runBucketOps (applyBucketOp b op) ops

/-- Clock readings are nondecreasing along the sequence, starting at `t`. -/
def TimesMono : ℚ → List BucketOp → Prop
  | _, [] => True
  | t, op :: ops => t ≤ op.time ∧ TimesMono op.time ops

/-- The clock reading after the last operation (or `t` if there is none). -/
def lastTime (t : ℚ) : List BucketOp → ℚ
  | [] => t
  | op :: ops => lastTime op.time ops

/-- The parameter fields are never changed by `userCanSyncAmount`. -/
theorem userCanSyncAmount_params (b : Bucket) (u : Bytes) (k : ℤ) (t : ℚ) :
    (b.userCanSyncAmount u k t).2.max_count = b.max_count ∧
    (b.userCanSyncAmount u k t).2.leak_rate = b.leak_rate ∧
    (b.userCanSyncAmount u k t).2.drain_period = b.drain_period := by
  unfold Bucket.userCanSyncAmount
  by_cases h1 : k > b.max_count
  · simp [h1]
  · cases hget : dget b.users u with
    | none => simp [h1, hget]
    | some tau =>
        by_cases h2 : tau < t
        · simp [h1, hget, h2]
        · by_cases h3 : tau + (k : ℚ) / b.leak_rate > t + b.drain_period
          · simp [h1, hget, h2, h3]
          · simp [h1, hget, h2, h3]

/-- The invariant weakens as the clock advances. -/
theorem BucketInv.mono {b : Bucket} {t t' : ℚ} (h : BucketInv b t) (ht : t ≤ t') :
    BucketInv b t' := by
  intro p hp
  have := h p hp
  linarith

/-- `userCanSyncAmount` preserves the horizon invariant at its own clock
reading. -/
theorem userCanSyncAmount_preserves_inv (b : Bucket) (u : Bytes) (k : ℤ) (t : ℚ)
    (hwf : b.WF) (hinv : BucketInv b t) :
    BucketInv ((b.userCanSyncAmount u k t).2) t := by
  unfold Bucket.userCanSyncAmount
  by_cases h1 : k > b.max_count
  · simpa [h1] using hinv
  · have hdiv : (k : ℚ) / b.leak_rate ≤ b.drain_period :=
      amount_div_rate_le_period b hwf k (not_lt.mp h1)
    cases hget : dget b.users u with
    | none =>
        simp only [h1, if_false, hget, BucketInv]
        intro p hp
        rcases mem_dset _ _ _ p hp with hm | hv
        · exact hinv p hm
        · rw [hv]; linarith
    | some tau =>
        by_cases h2 : tau < t
        · simp only [h1, if_false, hget, h2, if_true, BucketInv]
          intro p hp
          rcases mem_dset _ _ _ p hp with hm | hv
          · exact hinv p hm
          · rw [hv]; linarith
        · by_cases h3 : tau + (k : ℚ) / b.leak_rate > t + b.drain_period
          · simpa [h1, hget, h2, h3] using hinv
          · simp only [h1, if_false, hget, h2, h3, BucketInv]
            intro p hp
            rcases mem_dset _ _ _ p hp with hm | hv
            · exact hinv p hm
            · rw [hv]; linarith [not_lt.mp h3]

/-- `applyBucketOp` preserves the parameter fields. -/
theorem applyBucketOp_params (b : Bucket) (op : BucketOp) :
    (applyBucketOp b op).max_count = b.max_count ∧
    (applyBucketOp b op).leak_rate = b.leak_rate ∧
    (applyBucketOp b op).drain_period = b.drain_period := by
  cases op with
  | syncAmount u k t => exact userCanSyncAmount_params b u k t
  | clean t => exact ⟨rfl, rfl, rfl⟩
  | clearAll t => exact ⟨rfl, rfl, rfl⟩

/-- `applyBucketOp` preserves well-formedness. -/
theorem applyBucketOp_wf (b : Bucket) (op : BucketOp) (hwf : b.WF) :
    (applyBucketOp b op).WF := by
  obtain ⟨h1, h2, h3⟩ := applyBucketOp_params b op
  exact ⟨h1 ▸ hwf.1, h3 ▸ hwf.2.1, by rw [h1, h2, h3]; exact hwf.2.2⟩

/-- `applyBucketOp` preserves the horizon invariant at its clock reading. -/
theorem applyBucketOp_preserves_inv (b : Bucket) (op : BucketOp)
    (hwf : b.WF) (hinv : BucketInv b op.time) :
    BucketInv (applyBucketOp b op) op.time := by
  cases op with
  | syncAmount u k t => exact userCanSyncAmount_preserves_inv b u k t hwf hinv
  | clean t =>
      intro p hp
      exact hinv p (List.mem_of_mem_filter hp)
  | clearAll t =>
      intro p hp
      simp [applyBucketOp, Bucket.clearAll] at hp

/-- C6: along any monotone-time sequence of bucket operations starting
from an invariant-satisfying state, every stored entry satisfies
`τ(u) ≤ now + P` at the final clock reading; moreover an `admit` whose
projected timestamp would exceed the horizon writes nothing. -/
theorem bucket_horizon_invariant :
    (∀ (b : Bucket) (t : ℚ) (ops : List BucketOp), b.WF → TimesMono t ops →
       BucketInv b t → BucketInv (runBucketOps b ops) (lastTime t ops)) ∧
    (∀ (b : Bucket) (u : Bytes) (k : ℤ) (t tau : ℚ),
       dget b.users u = some tau → ¬ tau < t →
       tau + (k : ℚ) / b.leak_rate > t + b.drain_period → k ≤ b.max_count →
       (b.userCanSyncAmount u k t).2 = b) := by
  constructor
  · intro b t ops
    induction ops generalizing b t with
    | nil => intro _ _ hinv; exact hinv
    | cons op ops ih =>
        intro hwf hmono hinv
        exact ih (applyBucketOp b op) op.time (applyBucketOp_wf b op hwf)
          hmono.2 (applyBucketOp_preserves_inv b op hwf (hinv.mono hmono.1))
  · intro b u k t tau hget hstale hover hk
    unfold Bucket.userCanSyncAmount
    simp [not_lt.mpr hk, hget, hstale, hover]

/-- Concrete operation sequence for the invariant witness. -/
def bucketOpsEx : List BucketOp :=
  [.syncAmount [7] 20000 1234, .clean 5000, .syncAmount [8] 100 6000,
   .clearAll 7000, .syncAmount [7] 1 8000]

/-- Concrete over-horizon bucket for the no-write witness. -/
def bucketEx : Bucket :=
  { users := [([7], 87634)], max_count := 20000,
    leak_rate := 20000 / 86400, drain_period := 86400 }

/-- Witness for the horizon invariant theorem at concrete inputs. -/
theorem bucket_horizon_invariant_witness :
    ((Bucket.init 20000 86400).WF ∧ TimesMono 0 bucketOpsEx ∧
       BucketInv (Bucket.init 20000 86400) 0) ∧
    (dget bucketEx.users [7] = some 87634 ∧ ¬ (87634 : ℚ) < 2000 ∧
       (87634 : ℚ) + ((20000 : ℤ) : ℚ) / bucketEx.leak_rate >
         2000 + bucketEx.drain_period ∧ (20000 : ℤ) ≤ bucketEx.max_count) ∧
    BucketInv (runBucketOps (Bucket.init 20000 86400) bucketOpsEx) (lastTime 0 bucketOpsEx) ∧
    (bucketEx.userCanSyncAmount [7] 20000 2000).2 = bucketEx := by
  have hwf : (Bucket.init 20000 86400).WF := by norm_num [Bucket.init, Bucket.WF]
  have hmono : TimesMono 0 bucketOpsEx := by
    norm_num [TimesMono, bucketOpsEx, BucketOp.time]
  have hinv : BucketInv (Bucket.init 20000 86400) 0 := by
    simp [BucketInv, Bucket.init]
  have h1 : dget bucketEx.users [7] = some 87634 := by norm_num [bucketEx, dget]
  have h2 : ¬ (87634 : ℚ) < 2000 := by norm_num
  have h3 : (87634 : ℚ) + ((20000 : ℤ) : ℚ) / bucketEx.leak_rate >
      2000 + bucketEx.drain_period := by norm_num [bucketEx]
  have h4 : (20000 : ℤ) ≤ bucketEx.max_count := by norm_num [bucketEx]
  exact ⟨⟨hwf, hmono, hinv⟩, ⟨h1, h2, h3, h4⟩,
    bucket_horizon_invariant.1 (Bucket.init 20000 86400) 0 bucketOpsEx hwf hmono hinv,
    bucket_horizon_invariant.2 bucketEx [7] 20000 2000 87634 h1 h2 h3 h4⟩

/-! ### Sweep and intersection (`userSet.py`) -/

/-- Dropped length of a filter is the length of the complementary filter. -/
theorem length_sub_filter {α : Type} (l : List α) (p : α → Bool) :
    l.length - (l.filter p).length = (l.filter (fun x => !p x)).length := by
  induction l with
  | nil => rfl
  | cons a l ih =>
      have hle := List.length_filter_le p l
      by_cases h : p a = true
      · have h1 : (List.filter p (a :: l)).length = (List.filter p l).length + 1 := by
          simp [List.filter_cons, h]
        have h2 : (List.filter (fun x => !p x) (a :: l)).length =
            (List.filter (fun x => !p x) l).length := by
          simp [List.filter_cons, h]
        simp only [List.length_cons, h1, h2]
        omega
      · have h' : p a = false := by simpa using h
        have h1 : (List.filter p (a :: l)).length = (List.filter p l).length := by
          simp [List.filter_cons, h']
        have h2 : (List.filter (fun x => !p x) (a :: l)).length =
            (List.filter (fun x => !p x) l).length + 1 := by
          simp [List.filter_cons, h']
        simp only [List.length_cons, h1, h2]
        omega

/-- A key absent from a dict is absent from any filtered dict. -/
theorem not_mem_keys_filter {α : Type} (m : List (Bytes × α)) (p : Bytes × α → Bool)
    (k : Bytes) (h : k ∉ m.map Prod.fst) : k ∉ (m.filter p).map Prod.fst := by
  intro hk
  apply h
  obtain ⟨pa, hpa, hfst⟩ := List.mem_map.mp hk
  exact List.mem_map.mpr ⟨pa, List.mem_of_mem_filter hpa, hfst⟩

/-- With unique keys, lookup in a filtered dict succeeds exactly when it
succeeds in the original and the entry passes the filter. -/
theorem dget_filter {α : Type} (m : List (Bytes × α)) (p : Bytes × α → Bool)
    (k : Bytes) (v : α) (h : NodupKeys m) :
    dget (m.filter p) k = some v ↔ (dget m k = some v ∧ p (k, v) = true) := by
  induction m with
  | nil => simp
  | cons hd tl ih =>
      obtain ⟨k', v'⟩ := hd
      simp only [NodupKeys, List.map_cons, List.nodup_cons] at h
      by_cases hk : k' = k
      · subst hk
        by_cases hp : p (k', v') = true
        · simp only [List.filter_cons, hp, if_true, dget_cons, eq_self_iff_true]
          constructor
          · intro hv
            refine ⟨hv, ?_⟩
            have hv' : v' = v := by simpa using hv
            exact hv' ▸ hp
          · exact fun hv => hv.1
        · have hp' : p (k', v') = false := by simpa using hp
          have hnone : dget (tl.filter p) k' = none :=
            dget_eq_none_of_not_mem _ _ (not_mem_keys_filter tl p k' h.1)
          simp only [List.filter_cons, hp', Bool.false_eq_true, if_false, hnone,
            dget_cons, eq_self_iff_true, if_true]
          constructor
          · intro hv
            cases hv
          · intro hv
            have hv' : v' = v := by simpa using hv.1
            rw [hv'] at hp'
            rw [hv.2] at hp'
            cases hp'
      · have hrec := ih h.2
        by_cases hp : p (k', v') = true
        · simpa [List.filter_cons, hp, dget_cons, hk] using hrec
        · have hp' : p (k', v') = false := by simpa using hp
          simpa [List.filter_cons, hp', dget_cons, hk] using hrec

/-- C7: `update(T)` removes exactly the entries with deadline `≤ T`,
returns the number removed, and afterwards every remaining entry has a
deadline strictly beyond `T`. -/
theorem expiring_update_spec (s : ExpiringUserSet) (T : ℤ) (h : NodupKeys s.users) :
    (s.update T).1 = (s.users.filter (fun kv => kv.2 ≤ T)).length ∧
    (∀ u d, dget (s.update T).2.users u = some d ↔ (dget s.users u = some d ∧ d > T)) ∧
    (∀ p ∈ (s.update T).2.users, p.2 > T) := by
  refine ⟨?_, ?_, ?_⟩
  · show s.users.length - (s.users.filter (fun kv => kv.2 > T)).length = _
    rw [length_sub_filter]
    congr 1
    apply List.filter_congr
    intro kv _
    by_cases hkv : kv.2 ≤ T
    · simp [hkv, not_lt.mpr hkv]
    · simp [hkv, lt_of_not_le hkv]
  · intro u d
    show dget (s.users.filter (fun kv => kv.2 > T)) u = some d ↔ _
    rw [dget_filter _ _ _ _ h]
    simp
  · intro p hp
    have := List.of_mem_filter hp
    simpa using this

/-- The concrete expiring set of `test_exp_set_update_set`. -/
def expSetEx : ExpiringUserSet :=
  ⟨[([1], 1234 + 86400), ([2], 12345 + 86400)], 86400⟩

/-- Witness for the sweep theorem at the values of `test_exp_set_update_set`. -/
theorem expiring_update_spec_witness :
    NodupKeys expSetEx.users ∧
    ((expSetEx.update (1235 + 86400)).1 =
        (expSetEx.users.filter (fun kv => kv.2 ≤ 1235 + 86400)).length ∧
      (∀ u d, dget (expSetEx.update (1235 + 86400)).2.users u = some d ↔
        (dget expSetEx.users u = some d ∧ d > 1235 + 86400)) ∧
      (∀ p ∈ (expSetEx.update (1235 + 86400)).2.users, p.2 > 1235 + 86400)) :=
  ⟨by simp only [NodupKeys]; decide,
   expiring_update_spec expSetEx (1235 + 86400) (by simp only [NodupKeys]; decide)⟩

/-- Occurrence counts in a filtered list. -/
theorem count_filter_ite (l : List Bytes) (p : Bytes → Bool) (x : Bytes) :
    (l.filter p).count x = if p x = true then l.count x else 0 := by
  induction l with
  | nil => simp
  | cons a l ih =>
      by_cases hpa : p a = true
      · by_cases hax : a = x
        · subst hax
          simp [List.filter_cons, hpa, List.count_cons, ih]
        · simp [List.filter_cons, hpa, List.count_cons, hax, ih]
      · have hpa' : p a = false := by simpa using hpa
        by_cases hax : a = x
        · subst hax
          simp [List.filter_cons, hpa', List.count_cons, ih, hpa]
        · simp [List.filter_cons, hpa', List.count_cons, hax, ih]

/-- C8: `containedUsers` returns exactly the input elements whose key is
present — a sublist of the input (order preserved) with the occurrence
count of each present element kept and of each absent element zero — and
for the expiring set, presence is pure key presence: an entry whose
deadline `d` has already passed (`d ≤ now`) is still reported. -/
theorem containedUsers_spec :
    (∀ (s : UserSet) (ids : List Bytes),
       (s.containedUsers ids).Sublist ids ∧
       ∀ x, (s.containedUsers ids).count x =
         if s.userExists x = true then ids.count x else 0) ∧
    (∀ (s : ExpiringUserSet) (ids : List Bytes),
       (s.containedUsers ids).Sublist ids ∧
       ∀ x, (s.containedUsers ids).count x =
         if s.userExists x = true then ids.count x else 0) ∧
    (∀ (s : ExpiringUserSet) (u : Bytes) (d now : ℤ) (ids : List Bytes),
       dget s.users u = some d → d ≤ now → u ∈ ids → u ∈ s.containedUsers ids) := by
  refine ⟨?_, ?_, ?_⟩
  · intro s ids
    exact ⟨List.filter_sublist ids, fun x =>
      count_filter_ite ids (fun y => (dget s.users y).isSome) x⟩
  · intro s ids
    exact ⟨List.filter_sublist ids, fun x =>
      count_filter_ite ids (fun y => (dget s.users y).isSome) x⟩
  · intro s u d now ids hget _ hmem
    refine List.mem_filter.mpr ⟨hmem, ?_⟩
    simp [hget]

/-- Witness: an entry with an elapsed deadline is still intersected. -/
theorem containedUsers_spec_witness :
    dget (ExpiringUserSet.mk [([1], 5)] 86400).users [1] = some 5 ∧ (5 : ℤ) ≤ 10 ∧
      [1] ∈ [[0], [1]] ∧
      [1] ∈ (ExpiringUserSet.mk [([1], 5)] 86400).containedUsers [[0], [1]] :=
  ⟨by decide, by decide, by decide,
   containedUsers_spec.2.2 (ExpiringUserSet.mk [([1], 5)] 86400) [1] 5 10 [[0], [1]]
     (by decide) (by decide) (by decide)⟩

/-! ### Discovery operations: authentication order and rate limiting -/

/-- A successful lookup exhibits its entry. -/
theorem mem_of_dget {α : Type} (m : List (Bytes × α)) (k : Bytes) (v : α)
    (h : dget m k = some v) : (k, v) ∈ m := by
  induction m with
  | nil => cases h
  | cons hd tl ih =>
      obtain ⟨k', v'⟩ := hd
      by_cases hk : k' = k
      · subst hk
        simp only [dget_cons, eq_self_iff_true, if_true, Option.some.injEq] at h
        subst h
        exact List.mem_cons_self _ _
      · simp only [dget_cons, if_neg hk] at h
        exact List.mem_cons_of_mem _ (ih h)

/-- Under the horizon invariant, an `admit` of zero units always succeeds
(`0/r = 0`, so the projected timestamp never exceeds the horizon). -/
theorem userCanSyncAmount_zero_true (b : Bucket) (u : Bytes) (t : ℚ)
    (hmax : 0 ≤ b.max_count) (hinv : BucketInv b t) :
    (b.userCanSyncAmount u 0 t).1 = true := by
  unfold Bucket.userCanSyncAmount
  have h1 : ¬ (0 : ℤ) > b.max_count := not_lt.mpr hmax
  cases hget : dget b.users u with
  | none => simp [h1, hget]
  | some tau =>
      by_cases h2 : tau < t
      · simp [h1, hget, h2]
      · have htau : tau ≤ t + b.drain_period := hinv (u, tau) (mem_of_dget _ _ _ hget)
        simp [h1, hget, h2, not_lt.mpr htau]

/-- The behaviour stated by C5 for the full sync operation: invalid
authentication yields *authentication-invalid* regardless of the contact
list; under valid authentication the operation is rate-limited exactly when
`|contacts| > C` or the bucket denies; otherwise the reply carries
`S1.intersect(contacts)`. -/
def FullSyncSpec (s : ServerState) (data : Option (List ℕ)) (u tok : Bytes)
    (ids : List Bytes) (now : ℚ) : Prop :=
  (s.s1.isValidUser u tok = false →
      (fullDiscoveryWithErrors s data now).1 = .error .authenticationError) ∧
  (s.s1.isValidUser u tok = true →
      ((fullDiscoveryWithErrors s data now).1 = .error .rateLimitError ↔
        ((ids.length : ℤ) > max_contacts ∨
          (s.s1_buckets.userCanSyncAmount u (ids.length : ℤ) now).1 = false))) ∧
  (s.s1.isValidUser u tok = true →
      (fullDiscoveryWithErrors s data now).1 ≠ .error .rateLimitError →
      (fullDiscoveryWithErrors s data now).1 =
        .ok (makeResponse (s.s1.containedUsers ids) []))

/-- The behaviour stated by C5 for the incremental sync operation. -/
def IncSyncSpec (s : ServerState) (data : Option (List ℕ)) (u tok : Bytes)
    (ids : List Bytes) (now : ℚ) : Prop :=
  (s.s1.isValidUser u tok = false →
      (incrementalDiscoveryWithErrors s data now).1 = .error .authenticationError) ∧
  (s.s1.isValidUser u tok = true →
      ((incrementalDiscoveryWithErrors s data now).1 = .error .rateLimitError ↔
        ((ids.length : ℤ) > max_contacts ∨
          (s.s2_buckets.userCanSyncAmount u (ids.length : ℤ) now).1 = false))) ∧
  (s.s1.isValidUser u tok = true →
      (incrementalDiscoveryWithErrors s data now).1 ≠ .error .rateLimitError →
      (incrementalDiscoveryWithErrors s data now).1 =
        .ok (makeResponse (s.s2_added.containedUsers ids)
                          (s.s2_removed.containedUsers ids)))

/-- C5: both discovery operations authenticate first and rate-limit
exactly as specified, in states whose buckets are the deployed ones
(capacity `max_contacts`) and satisfy the horizon invariant at the call
time. -/
theorem sync_auth_precedes_rate_limit (s : ServerState) (d : List ℕ) (u tok : Bytes)
    (ids : List Bytes) (now : ℚ)
    (hparse : parseRequest d = some ⟨u, tok, ids⟩)
    (hmax1 : s.s1_buckets.max_count = max_contacts)
    (hmax2 : s.s2_buckets.max_count = max_contacts)
    (hinv1 : BucketInv s.s1_buckets now)
    (hinv2 : BucketInv s.s2_buckets now) :
    FullSyncSpec s (some d) u tok ids now ∧ IncSyncSpec s (some d) u tok ids now := by
  have hdata : getDataFromRequest (some d) = .ok (u, tok, ids) := by
    simp [getDataFromRequest, hparse]
  have hmaxpos : (0 : ℤ) ≤ max_contacts := by norm_num [max_contacts]
  cases hv : s.s1.isValidUser u tok with
  | false =>
      have hca : checkAuthentication s.s1 (some d) = .error .authenticationError := by
        simp [checkAuthentication, hdata, hv]
      have hcae : checkAuthenticationAndExtractIdentifiers s.s1 (some d) =
          .error .authenticationError := by
        simp [checkAuthenticationAndExtractIdentifiers, hca]
      refine ⟨⟨?_, ?_, ?_⟩, ⟨?_, ?_, ?_⟩⟩
      · intro _
        simp [fullDiscoveryWithErrors, hcae]
      · intro hcontra; rw [hcontra] at hv; cases hv
      · intro hcontra; rw [hcontra] at hv; cases hv
      · intro _
        simp [incrementalDiscoveryWithErrors, hcae]
      · intro hcontra; rw [hcontra] at hv; cases hv
      · intro hcontra; rw [hcontra] at hv; cases hv
  | true =>
      have hca : checkAuthentication s.s1 (some d) = .ok (u, ids) := by
        simp [checkAuthentication, hdata, hv]
      by_cases hlen : (ids.length : ℤ) > max_contacts
      · have hcae : checkAuthenticationAndExtractIdentifiers s.s1 (some d) =
            .error .rateLimitError := by
          simp [checkAuthenticationAndExtractIdentifiers, hca, hlen]
        have hres : (fullDiscoveryWithErrors s (some d) now).1 = .error .rateLimitError := by
          simp [fullDiscoveryWithErrors, hcae]
        have hres' : (incrementalDiscoveryWithErrors s (some d) now).1 =
            .error .rateLimitError := by
          simp [incrementalDiscoveryWithErrors, hcae]
        refine ⟨⟨?_, ?_, ?_⟩, ⟨?_, ?_, ?_⟩⟩
        · intro hcontra; rw [hv] at hcontra; cases hcontra
        · intro _; simp [hres, hlen]
        · intro _ hcontra; exact absurd hres hcontra
        · intro hcontra; rw [hv] at hcontra; cases hcontra
        · intro _; simp [hres', hlen]
        · intro _ hcontra; exact absurd hres' hcontra
      · have hcae : checkAuthenticationAndExtractIdentifiers s.s1 (some d) =
            .ok (u, ids) := by
          simp [checkAuthenticationAndExtractIdentifiers, hca, hlen]
        by_cases hnil : ids.length = 0
        · obtain rfl : ids = [] := List.length_eq_zero.mp hnil
          have hres : (fullDiscoveryWithErrors s (some d) now).1 =
              .ok (makeResponse [] []) := by
            simp [fullDiscoveryWithErrors, hcae]
          have hres' : (incrementalDiscoveryWithErrors s (some d) now).1 =
              .ok (makeResponse [] []) := by
            simp [incrementalDiscoveryWithErrors, hcae]
          have hadmit1 : (s.s1_buckets.userCanSyncAmount u 0 now).1 = true :=
            userCanSyncAmount_zero_true _ _ _ (hmax1 ▸ hmaxpos) hinv1
          have hadmit2 : (s.s2_buckets.userCanSyncAmount u 0 now).1 = true :=
            userCanSyncAmount_zero_true _ _ _ (hmax2 ▸ hmaxpos) hinv2
          refine ⟨⟨?_, ?_, ?_⟩, ⟨?_, ?_, ?_⟩⟩
          · intro hcontra; rw [hv] at hcontra; cases hcontra
          · intro _
            simp [hres, hadmit1, hmaxpos, not_lt.mpr hmaxpos]
          · intro _ _
            exact hres
          · intro hcontra; rw [hv] at hcontra; cases hcontra
          · intro _
            simp [hres', hadmit2, hmaxpos, not_lt.mpr hmaxpos]
          · intro _ _
            exact hres'
        · rcases hsync1 : s.s1_buckets.userCanSyncAmount u (ids.length : ℤ) now with ⟨ab1, bb1⟩
          rcases hsync2 : s.s2_buckets.userCanSyncAmount u (ids.length : ℤ) now with ⟨ab2, bb2⟩
          have hres : (fullDiscoveryWithErrors s (some d) now).1 =
              if ab1 then .ok (makeResponse (s.s1.containedUsers ids) [])
              else .error .rateLimitError := by
            simp only [fullDiscoveryWithErrors, hcae, hnil, if_false, hsync1]
            cases ab1 <;> simp
          have hres' : (incrementalDiscoveryWithErrors s (some d) now).1 =
              if ab2 then .ok (makeResponse (s.s2_added.containedUsers ids)
                                            (s.s2_removed.containedUsers ids))
              else .error .rateLimitError := by
            simp only [incrementalDiscoveryWithErrors, hcae, hnil, if_false, hsync2]
            cases ab2 <;> simp
          refine ⟨⟨?_, ?_, ?_⟩, ⟨?_, ?_, ?_⟩⟩
          · intro hcontra; rw [hv] at hcontra; cases hcontra
          · intro _
            rw [hres, hsync1]
            cases ab1 <;> simp [hlen]
          · intro _ hne
            rw [hres] at hne ⊢
            cases ab1 with
            | true => simp
            | false => simp at hne
          · intro hcontra; rw [hv] at hcontra; cases hcontra
          · intro _
            rw [hres', hsync2]
            cases ab2 <;> simp [hlen]
          · intro _ hne
            rw [hres'] at hne ⊢
            cases ab2 with
            | true => simp
            | false => simp at hne

/-- Concrete server state: one registered user (the empty identifier with
the empty token, which is what an empty request body decodes to). -/
def serverEx : ServerState := { initialState with s1 := UserSet.mk [([], [])] }

/-- Witness for C5 at a concrete state and request. -/
theorem sync_auth_precedes_rate_limit_witness :
    parseRequest [] = some ⟨[], [], []⟩ ∧
    serverEx.s1_buckets.max_count = max_contacts ∧
    serverEx.s2_buckets.max_count = max_contacts ∧
    BucketInv serverEx.s1_buckets 0 ∧ BucketInv serverEx.s2_buckets 0 ∧
    (FullSyncSpec serverEx (some []) [] [] [] 0 ∧
     IncSyncSpec serverEx (some []) [] [] [] 0) :=
  ⟨rfl, rfl, rfl,
   by simp [BucketInv, serverEx, initialState, Bucket.init],
   by simp [BucketInv, serverEx, initialState, Bucket.init],
   sync_auth_precedes_rate_limit serverEx [] [] [] [] 0 rfl rfl rfl
     (by simp [BucketInv, serverEx, initialState, Bucket.init])
     (by simp [BucketInv, serverEx, initialState, Bucket.init])⟩

/-- C9: an authenticated discovery request with an empty contact list
answers `SUCCESS` with empty result lists, and neither bucket changes (the
only state change is the pre-operation sweep of the delta sets). -/
theorem empty_contacts_no_bucket_touch (s : ServerState) (d : List ℕ) (u tok : Bytes)
    (nowS : ℤ) (nowB : ℚ)
    (hparse : parseRequest d = some ⟨u, tok, []⟩)
    (hauth : s.s1.isValidUser u tok = true) :
    fullDiscovery s (some d) nowS nowB = (makeResponse [] [], updateUserSets s nowS) ∧
    incrementalDiscovery s (some d) nowS nowB =
      (makeResponse [] [], updateUserSets s nowS) ∧
    (fullDiscovery s (some d) nowS nowB).2.s1_buckets = s.s1_buckets ∧
    (fullDiscovery s (some d) nowS nowB).2.s2_buckets = s.s2_buckets ∧
    (incrementalDiscovery s (some d) nowS nowB).2.s1_buckets = s.s1_buckets ∧
    (incrementalDiscovery s (some d) nowS nowB).2.s2_buckets = s.s2_buckets := by
  have hdata : getDataFromRequest (some d) = .ok (u, tok, []) := by
    simp [getDataFromRequest, hparse]
  have hca : checkAuthentication s.s1 (some d) = .ok (u, []) := by
    simp [checkAuthentication, hdata, hauth]
  have hcae : checkAuthenticationAndExtractIdentifiers s.s1 (some d) = .ok (u, []) := by
    simp [checkAuthenticationAndExtractIdentifiers, hca, max_contacts]
  have hs1 : (updateUserSets s nowS).s1 = s.s1 := rfl
  have h1 : fullDiscoveryWithErrors (updateUserSets s nowS) (some d) nowB =
      (.ok (makeResponse [] []), updateUserSets s nowS) := by
    simp [fullDiscoveryWithErrors, hs1, hcae]
  have h2 : incrementalDiscoveryWithErrors (updateUserSets s nowS) (some d) nowB =
      (.ok (makeResponse [] []), updateUserSets s nowS) := by
    simp [incrementalDiscoveryWithErrors, hs1, hcae]
  have hfull : fullDiscovery s (some d) nowS nowB =
      (makeResponse [] [], updateUserSets s nowS) := by
    simp [fullDiscovery, catchRequestErrors, h1]
  have hinc : incrementalDiscovery s (some d) nowS nowB =
      (makeResponse [] [], updateUserSets s nowS) := by
    simp [incrementalDiscovery, catchRequestErrors, h2]
  refine ⟨hfull, hinc, ?_, ?_, ?_, ?_⟩ <;> first | rw [hfull] | rw [hinc]
  all_goals rfl

/-- Witness for C9 at a concrete state and request. -/
theorem empty_contacts_no_bucket_touch_witness :
    parseRequest [] = some ⟨[], [], []⟩ ∧
    serverEx.s1.isValidUser [] [] = true ∧
    (fullDiscovery serverEx (some []) 0 0 =
        (makeResponse [] [], updateUserSets serverEx 0) ∧
      incrementalDiscovery serverEx (some []) 0 0 =
        (makeResponse [] [], updateUserSets serverEx 0) ∧
      (fullDiscovery serverEx (some []) 0 0).2.s1_buckets = serverEx.s1_buckets ∧
      (fullDiscovery serverEx (some []) 0 0).2.s2_buckets = serverEx.s2_buckets ∧
      (incrementalDiscovery serverEx (some []) 0 0).2.s1_buckets = serverEx.s1_buckets ∧
      (incrementalDiscovery serverEx (some []) 0 0).2.s2_buckets = serverEx.s2_buckets) :=
  ⟨rfl, by decide,
   empty_contacts_no_bucket_touch serverEx [] [] [] 0 0 rfl (by decide)⟩

/-- Frame properties of the full-sync operation body: `S1` and the delta
sets are read only, the incremental bucket is untouched, successful
replies carry `SUCCESS`, and an error outcome leaves the full bucket
unchanged. -/
theorem fullDiscoveryWithErrors_frame (s : ServerState) (data : Option (List ℕ)) (now : ℚ) :
    (fullDiscoveryWithErrors s data now).2.s1 = s.s1 ∧
    (fullDiscoveryWithErrors s data now).2.s2_added = s.s2_added ∧
    (fullDiscoveryWithErrors s data now).2.s2_removed = s.s2_removed ∧
    (fullDiscoveryWithErrors s data now).2.s2_buckets = s.s2_buckets ∧
    (∀ r, (fullDiscoveryWithErrors s data now).1 = .ok r → r.result = .SUCCESS) ∧
    (∀ e, (fullDiscoveryWithErrors s data now).1 = .error e →
        (fullDiscoveryWithErrors s data now).2.s1_buckets = s.s1_buckets) := by
  cases hca : checkAuthenticationAndExtractIdentifiers s.s1 data with
  | error e =>
      simp [fullDiscoveryWithErrors, hca, makeResponse]
  | ok p =>
      obtain ⟨user, ids⟩ := p
      by_cases hnil : ids.length = 0
      · simp [fullDiscoveryWithErrors, hca, hnil, makeResponse]
      · rcases hsync : s.s1_buckets.userCanSyncAmount user (ids.length : ℤ) now with ⟨ab, bb⟩
        cases ab with
        | true =>
            simp [fullDiscoveryWithErrors, hca, hnil, hsync, makeResponse]
        | false =>
            have hfr : bb = s.s1_buckets := by
              have h := userCanSyncAmount_false_frame s.s1_buckets user (ids.length : ℤ) now
                (by rw [hsync])
              rw [hsync] at h
              exact h
            simp [fullDiscoveryWithErrors, hca, hnil, hsync, makeResponse, hfr]

/-- Frame properties of the incremental-sync operation body. -/
theorem incrementalDiscoveryWithErrors_frame (s : ServerState) (data : Option (List ℕ))
    (now : ℚ) :
    (incrementalDiscoveryWithErrors s data now).2.s1 = s.s1 ∧
    (incrementalDiscoveryWithErrors s data now).2.s2_added = s.s2_added ∧
    (incrementalDiscoveryWithErrors s data now).2.s2_removed = s.s2_removed ∧
    (incrementalDiscoveryWithErrors s data now).2.s1_buckets = s.s1_buckets ∧
    (∀ r, (incrementalDiscoveryWithErrors s data now).1 = .ok r → r.result = .SUCCESS) ∧
    (∀ e, (incrementalDiscoveryWithErrors s data now).1 = .error e →
        (incrementalDiscoveryWithErrors s data now).2.s2_buckets = s.s2_buckets) := by
  cases hca : checkAuthenticationAndExtractIdentifiers s.s1 data with
  | error e =>
      simp [incrementalDiscoveryWithErrors, hca, makeResponse]
  | ok p =>
      obtain ⟨user, ids⟩ := p
      by_cases hnil : ids.length = 0
      · simp [incrementalDiscoveryWithErrors, hca, hnil, makeResponse]
      · rcases hsync : s.s2_buckets.userCanSyncAmount user (ids.length : ℤ) now with ⟨ab, bb⟩
        cases ab with
        | true =>
            simp [incrementalDiscoveryWithErrors, hca, hnil, hsync, makeResponse]
        | false =>
            have hfr : bb = s.s2_buckets := by
              have h := userCanSyncAmount_false_frame s.s2_buckets user (ids.length : ℤ) now
                (by rw [hsync])
              rw [hsync] at h
              exact h
            simp [incrementalDiscoveryWithErrors, hca, hnil, hsync, makeResponse, hfr]

/-- C10: whatever the outcome, the discovery handlers leave `S1` unchanged,
change the delta sets only by the pre-operation sweep, leave the other
bucket untouched, and change the corresponding bucket only when the
response is `SUCCESS`. -/
theorem discovery_frame (s : ServerState) (data : Option (List ℕ)) (nowS : ℤ) (nowB : ℚ) :
    ((fullDiscovery s data nowS nowB).2.s1 = s.s1 ∧
     (fullDiscovery s data nowS nowB).2.s2_added = (s.s2_added.update nowS).2 ∧
     (fullDiscovery s data nowS nowB).2.s2_removed = (s.s2_removed.update nowS).2 ∧
     (fullDiscovery s data nowS nowB).2.s2_buckets = s.s2_buckets ∧
     ((fullDiscovery s data nowS nowB).1.result ≠ .SUCCESS →
        (fullDiscovery s data nowS nowB).2.s1_buckets = s.s1_buckets)) ∧
    ((incrementalDiscovery s data nowS nowB).2.s1 = s.s1 ∧
     (incrementalDiscovery s data nowS nowB).2.s2_added = (s.s2_added.update nowS).2 ∧
     (incrementalDiscovery s data nowS nowB).2.s2_removed = (s.s2_removed.update nowS).2 ∧
     (incrementalDiscovery s data nowS nowB).2.s1_buckets = s.s1_buckets ∧
     ((incrementalDiscovery s data nowS nowB).1.result ≠ .SUCCESS →
        (incrementalDiscovery s data nowS nowB).2.s2_buckets = s.s2_buckets)) := by
  constructor
  · obtain ⟨f1, f2, f3, f4, f5, f6⟩ :=
      fullDiscoveryWithErrors_frame (updateUserSets s nowS) data nowB
    rcases hres : fullDiscoveryWithErrors (updateUserSets s nowS) data nowB with ⟨res, s''⟩
    rw [hres] at f1 f2 f3 f4 f5 f6
    simp only at f1 f2 f3 f4 f5 f6
    have hfd : fullDiscovery s data nowS nowB =
        (match res with | .ok r => r | .error e => makeErrorResponse e, s'') := by
      cases res <;> simp [fullDiscovery, catchRequestErrors, hres]
    rw [hfd]
    refine ⟨f1, f2, f3, f4, ?_⟩
    intro hne
    cases res with
    | ok r =>
        exact absurd (f5 r rfl) (by simpa using hne)
    | error e =>
        simpa using f6 e rfl
  · obtain ⟨f1, f2, f3, f4, f5, f6⟩ :=
      incrementalDiscoveryWithErrors_frame (updateUserSets s nowS) data nowB
    rcases hres : incrementalDiscoveryWithErrors (updateUserSets s nowS) data nowB with
      ⟨res, s''⟩
    rw [hres] at f1 f2 f3 f4 f5 f6
    simp only at f1 f2 f3 f4 f5 f6
    have hfd : incrementalDiscovery s data nowS nowB =
        (match res with | .ok r => r | .error e => makeErrorResponse e, s'') := by
      cases res <;> simp [incrementalDiscovery, catchRequestErrors, hres]
    rw [hfd]
    refine ⟨f1, f2, f3, f4, ?_⟩
    intro hne
    cases res with
    | ok r =>
        exact absurd (f5 r rfl) (by simpa using hne)
    | error e =>
        simpa using f6 e rfl

/-- Witness for C10's error-outcome clause at a concrete failing request. -/
theorem discovery_frame_witness :
    (fullDiscovery initialState (some []) 0 0).1.result ≠ Result.SUCCESS ∧
    (fullDiscovery initialState (some []) 0 0).2.s1_buckets = initialState.s1_buckets ∧
    (incrementalDiscovery initialState (some []) 0 0).1.result ≠ Result.SUCCESS ∧
    (incrementalDiscovery initialState (some []) 0 0).2.s2_buckets = initialState.s2_buckets :=
  ⟨by decide,
   (discovery_frame initialState (some []) 0 0).1.2.2.2.2 (by decide),
   by decide,
   (discovery_frame initialState (some []) 0 0).2.2.2.2.2 (by decide)⟩
